import Mathlib

/-!
Shallow embedding of the rust-systemd bus layer (src/bus/mod.rs) and journal
reader (src/journal.rs).  Byte strings are lists of `Nat`, one entry per byte.
ASCII codes used throughout: 0 nul, 45 hyphen, 46 dot, 47 slash, 58 colon,
61 equals, 95 underscore, 97 the letter a.
-/

namespace Systemd

/-! ### Byte classes -/

/-- ASCII upper-case letter. -/
def isUpperByte (c : Nat) : Bool := decide (65 ≤ c ∧ c ≤ 90)

/-- ASCII lower-case letter. -/
def isLowerByte (c : Nat) : Bool := decide (97 ≤ c ∧ c ≤ 122)

/-- ASCII digit. -/
def isDigitByte (c : Nat) : Bool := decide (48 ≤ c ∧ c ≤ 57)

/-- Characters allowed inside an object-path element: `[A-Z][a-z][0-9]_`. -/
def isPathElemChar (c : Nat) : Bool :=
  isUpperByte c || isLowerByte c || isDigitByte c || c == 95

/-- Characters allowed to start a name element: `[A-Z][a-z]_`. -/
def isNameStartChar (c : Nat) : Bool := isUpperByte c || isLowerByte c || c == 95

/-- Characters allowed inside a name element: `[A-Z][a-z][0-9]_`. -/
def isNameChar (c : Nat) : Bool := isNameStartChar c || isDigitByte c

/-- Bus-name letter-like characters: `[A-Z][a-z]_-` (digits are a separate arm). -/
def isBusBareChar (c : Nat) : Bool :=
  isUpperByte c || isLowerByte c || c == 95 || c == 45

/-! ### Generic byte-list helpers -/

/-- Whether the byte `sep` occurs in the list. -/
def hasByte (sep : Nat) : List Nat → Bool
  | [] => false
  | c :: rest => c == sep || hasByte sep rest

/-- Longest initial segment not containing `sep` (the content before the first `sep`). -/
def takeUntil (sep : Nat) : List Nat → List Nat
  | [] => []
  | c :: rest => if c = sep then [] else c :: takeUntil sep rest

/-- Everything after the first occurrence of `sep` (empty when `sep` is absent). -/
def restAfter (sep : Nat) : List Nat → List Nat
  | [] => []
  | c :: rest => if c = sep then rest else restAfter sep rest

/-- Last element of the list, or `d` when the list is empty. -/
def lastOr (d : Nat) : List Nat → Nat
  | [] => d
  | c :: rest => lastOr c rest

/-- Split a byte list at every occurrence of `sep` (the list of elements;
an empty input yields one empty element, like splitting a string). -/
def splitOnByte (sep : Nat) : List Nat → List (List Nat)
  | [] => [[]]
  | c :: rest =>
    if c = sep then [] :: splitOnByte sep rest
    else
      match splitOnByte sep rest with
      | [] => [[c]]
      | e :: es => (c :: e) :: es

/-- The elements of `splitOnByte` other than the first one. -/
def splitTail (sep : Nat) : List Nat → List (List Nat)
  | [] => []
  | c :: rest => if c = sep then splitOnByte sep rest else splitTail sep rest

/-- Number of occurrences of the byte `sep`. -/
def countByte (sep : Nat) : List Nat → Nat
  | [] => 0
  | c :: rest => (if c = sep then 1 else 0) + countByte sep rest

/-- Whether the byte string contains a nul terminator. -/
def hasNul (s : List Nat) : Bool := hasByte 0 s

/-- The content of the byte string before its first nul. -/
def preNul (s : List Nat) : List Nat := takeUntil 0 s

/-- `true` for `Except.ok`, `false` for `Except.error`. -/
def exOk {ε α : Type} : Except ε α → Bool
  | Except.ok _ => true
  | Except.error _ => false

/-! ### ObjectPath::from_bytes (src/bus/mod.rs lines 53-89)

The Rust scanner iterates over `b.windows(2)`, classifying the second byte
`c` of each window with the first byte `prev` as one-byte look-behind.
`objectPathLoop blen prev l` is that loop with `blen` the total buffer
length `b.len()`, `prev` the previous byte and `l` the bytes still to scan. -/

def objectPathLoop (blen : Nat) (prev : Nat) : List Nat → Except String Unit
  | [] => Except.error "Path must be terminated in a nul byte (for use by sd-bus)"
  | c :: rest =>
    if c = 47 then
      if prev = 47 then Except.error "Path must not have 2 slashes next to each other"
      else objectPathLoop blen c rest
    else if isPathElemChar c then objectPathLoop blen c rest
    else if c = 0 then
      if prev = 47 ∧ blen ≠ 2 then
        Except.error "Path must not end in a slash unless it is the root path"
      else Except.ok ()
    else Except.error "Invalid character in path"

/-- `ObjectPath::from_bytes`: rejects the empty buffer, requires a leading
slash, then runs the window scan.  Success is modelled as `Except.ok ()`. -/
def ObjectPath.from_bytes : List Nat → Except String Unit
  | [] => Except.error "Path must have at least 1 character"
  | b0 :: rest =>
    if b0 = 47 then objectPathLoop (rest.length + 1) b0 rest
    else Except.error "Path must begin with a slash"

/-! ### InterfaceName::from_bytes (src/bus/mod.rs lines 146-200) -/

def interfaceLoop (blen : Nat) (prev periods : Nat) : List Nat → Except String Unit
  | [] => Except.error "Name must be terminated in a nul byte (for use by sd-bus)"
  | c :: rest =>
    if c = 46 then
      if prev = 46 then Except.error "Name must not have 2 dots next to each other"
      else interfaceLoop blen c (periods + 1) rest
    else if isNameStartChar c then interfaceLoop blen c periods rest
    else if isDigitByte c then
      if prev = 46 then Except.error "Name element must not start with a digit"
      else interfaceLoop blen c periods rest
    else if c = 0 then
      if prev = 46 ∧ blen ≠ 1 then Except.error "Name must not end in a dot"
      else if periods < 1 then Except.error "Name must have at least 2 elements"
      else Except.ok ()
    else Except.error "Invalid character in interface name"

def InterfaceName.from_bytes : List Nat → Except String Unit
  | [] => Except.error "Name must have more than 0 characters"
  | b0 :: rest =>
    if b0 = 46 then Except.error "Name must not begin with a dot"
    else if isNameStartChar b0 then interfaceLoop (rest.length + 1) b0 0 rest
    else Except.error "Name must only begin with an upper or lower letter or underscore"

/-! ### BusName::from_bytes (src/bus/mod.rs lines 267-327) -/

def busLoop (blen : Nat) (uniq : Bool) (prev periods : Nat) : List Nat → Except String Unit
  | [] => Except.error "Name must be terminated in a nul byte (for use by sd-bus)"
  | c :: rest =>
    if c = 46 then
      if prev = 46 ∨ prev = 58 then Except.error "Elements may not be empty"
      else busLoop blen uniq c (periods + 1) rest
    else if isBusBareChar c then busLoop blen uniq c periods rest
    else if isDigitByte c then
      if prev = 46 ∧ uniq = false then Except.error "Name element must not start with a digit"
      else busLoop blen uniq c periods rest
    else if c = 0 then
      if prev = 46 ∧ blen ≠ 1 then Except.error "Name must not end in a dot"
      else if periods < 1 then Except.error "Name must have at least 2 elements"
      else Except.ok ()
    else Except.error "Invalid character in bus name"

def BusName.from_bytes : List Nat → Except String Unit
  | [] => Except.error "Name must have more than 0 characters"
  | b0 :: rest =>
    if 256 < (b0 :: rest).length then Except.error "Must be shorter than 255 characters"
    else if b0 = 46 then Except.error "Name must not begin with a dot"
    else if isBusBareChar b0 then busLoop (rest.length + 1) false b0 0 rest
    else if b0 = 58 then busLoop (rest.length + 1) true b0 0 rest
    else Except.error "Name must only begin with an upper or lower letter or underscore"

/-! ### MemberName::from_bytes (src/bus/mod.rs lines 380-410)

Unlike the other validators this loop runs over every byte of the buffer
(`for c in b`), not over two-byte windows. -/

def memberLoop : List Nat → Except String Unit
  | [] => Except.error "Name must be terminated in a nul byte (for use by sd-bus)"
  | c :: rest =>
    if isNameChar c then memberLoop rest
    else if c = 0 then Except.ok ()
    else Except.error "Invalid character in member name"

def MemberName.from_bytes : List Nat → Except String Unit
  | [] => Except.error "Name must have more than 0 characters"
  | b0 :: rest =>
    if (b0 :: rest).length < 2 then Except.error "Name must have more than 0 characters"
    else if 256 < (b0 :: rest).length then Except.error "Must be shorter than 255 characters"
    else if isNameStartChar b0 then memberLoop (b0 :: rest)
    else Except.error "Must begin with an upper or lower letter or underscore"

/-! ### Spec §4.1 grammar for object paths

Written from the specification text: elements drawn from `[A-Za-z0-9_]+`,
non-empty, separated by single slashes; the path starts with a slash; a
trailing slash is forbidden unless the whole path is the root path. -/

/-- One grammar element of an object path: non-empty, element characters only. -/
def pathElementOk (e : List Nat) : Bool := !e.isEmpty && e.all isPathElemChar

/-- The §4.1 object-path grammar applied to the nul-free content `p`. -/
def specObjectPathGrammar : List Nat → Bool
  | [] => false
  | c :: rest => (c == 47) && (rest.isEmpty || (splitOnByte 47 rest).all pathElementOk)

/-- The C1 claim read strictly: the whole buffer is the path followed by one
final nul terminator, and the path matches the §4.1 grammar. -/
def objectPathStrictSpec (s : List Nat) : Bool :=
  (lastOr 1 s == 0) && specObjectPathGrammar s.dropLast

/-- The C1 claim read loosely: the buffer contains a nul and the content up to
the first nul matches the §4.1 grammar. -/
def objectPathPreNulSpec (s : List Nat) : Bool :=
  hasNul s && specObjectPathGrammar (preNul s)

/-- What `ObjectPath.from_bytes` actually accepts: the content before the
first nul matches the grammar, and the root path is only accepted when the
whole buffer is exactly the two bytes slash-nul. -/
def objectPathAmendedSpec (s : List Nat) : Bool :=
  hasNul s && specObjectPathGrammar (preNul s)
    && (!(preNul s == [47]) || s.length == 2)

/-! ### Small helper lemmas -/

theorem boolEq_of_iff {a b : Bool} (h : (a = true) ↔ (b = true)) : a = b := by
  cases a <;> cases b <;> simp_all

theorem exOk_eq_true_iff {ε : Type} (e : Except ε Unit) : exOk e = true ↔ e = Except.ok () := by
  cases e with
  | ok u => cases u; simp [exOk]
  | error msg => simp [exOk]

theorem splitOnByte_shape (sep : Nat) (l : List Nat) :
    splitOnByte sep l = takeUntil sep l :: splitTail sep l := by
  induction l with
  | nil => rfl
  | cons c rest ih =>
    by_cases h : c = sep
    · simp [splitOnByte, splitTail, takeUntil, h]
    · simp [splitOnByte, splitTail, takeUntil, h, ih]

theorem takeUntil_append_sep (sep : Nat) (p r : List Nat) (hp : hasByte sep p = false) :
    takeUntil sep (p ++ sep :: r) = p := by
  induction p with
  | nil => simp [takeUntil]
  | cons c q ih =>
    simp only [hasByte, Bool.or_eq_false_iff, beq_eq_false_iff_ne, ne_eq] at hp
    simp [takeUntil, hp.1, ih hp.2]

theorem hasByte_append_sep (sep : Nat) (p r : List Nat) :
    hasByte sep (p ++ sep :: r) = true := by
  induction p with
  | nil => simp [hasByte]
  | cons c q ih => simp [hasByte, ih]

theorem preNul_length_lt (s : List Nat) (h : hasNul s = true) :
    (preNul s).length < s.length := by
  induction s with
  | nil => simp [hasNul, hasByte] at h
  | cons c rest ih =>
    by_cases hc : c = 0
    · simp [preNul, takeUntil, hc]
    · simp only [hasNul, hasByte, Bool.or_eq_true, beq_iff_eq] at h
      rcases h with h | h
      · exact absurd h hc
      · have := ih h
        simp only [preNul, takeUntil] at *
        simp [hc, Nat.succ_lt_succ, this]

/-! ### Characterization of the object-path scanner -/

/-- One byte of the object-path scan body: a slash or an element character. -/
def pathLoopChar (c : Nat) : Bool := (c == 47) || isPathElemChar c

/-- Pair scan with look-behind `prev`: no two adjacent slashes. -/
def noDoubleSlash (prev : Nat) : List Nat → Bool
  | [] => true
  | c :: rest => !((prev == 47) && (c == 47)) && noDoubleSlash c rest

theorem objectPathLoop_ok (blen : Nat) (l : List Nat) : ∀ prev : Nat,
    objectPathLoop blen prev l = Except.ok () ↔
      (hasNul l = true ∧ (preNul l).all pathLoopChar = true ∧
       noDoubleSlash prev (preNul l) = true ∧
       (lastOr prev (preNul l) = 47 → blen = 2)) := by
  induction l with
  | nil => intro prev; simp [objectPathLoop, hasNul, hasByte]
  | cons c rest ih =>
    intro prev
    by_cases h47 : c = 47
    · subst h47
      by_cases hp : prev = 47
      · subst hp
        simp [objectPathLoop, hasNul, hasByte, preNul, takeUntil, noDoubleSlash]
      · rw [show objectPathLoop blen prev (47 :: rest) = objectPathLoop blen 47 rest by
          simp [objectPathLoop, hp]]
        rw [ih 47]
        simp [hasNul, hasByte, preNul, takeUntil, noDoubleSlash, lastOr, hp, pathLoopChar,
          isPathElemChar, isUpperByte, isLowerByte, isDigitByte]
    · by_cases helem : isPathElemChar c = true
      · have hc0 : c ≠ 0 := by
          intro h; subst h; revert helem; decide
        rw [show objectPathLoop blen prev (c :: rest) = objectPathLoop blen c rest by
          simp [objectPathLoop, h47, helem]]
        rw [ih c]
        simp [hasNul, hasByte, preNul, takeUntil, noDoubleSlash, lastOr, hc0, h47,
          pathLoopChar, helem]
      · by_cases hc0 : c = 0
        · subst hc0
          rw [show objectPathLoop blen prev (0 :: rest) =
              (if prev = 47 ∧ blen ≠ 2 then
                Except.error "Path must not end in a slash unless it is the root path"
              else Except.ok ()) by
            simp [objectPathLoop, helem]]
          by_cases hcond : prev = 47 ∧ blen ≠ 2
          · simp only [if_pos hcond]
            simp [hasNul, hasByte, preNul, takeUntil, noDoubleSlash, lastOr]
            exact hcond
          · simp only [if_neg hcond]
            simp [hasNul, hasByte, preNul, takeUntil, noDoubleSlash, lastOr]
            intro hpv
            by_contra hb
            exact hcond ⟨hpv, hb⟩
        · rw [show objectPathLoop blen prev (c :: rest) =
              Except.error "Invalid character in path" by
            simp [objectPathLoop, h47, helem, hc0]]
          simp [hasNul, hasByte, preNul, takeUntil, hc0, pathLoopChar, h47, helem]

/-- Bridge between the element-wise grammar and the pair-scan conditions, for a
scan position in the middle of an element (the first split component needs no
non-emptiness requirement).  `95` is a dummy non-slash look-behind byte. -/
theorem pathSplit_mid (l : List Nat) :
    ((takeUntil 47 l).all isPathElemChar = true ∧ (splitTail 47 l).all pathElementOk = true) ↔
      (l.all pathLoopChar = true ∧ noDoubleSlash 95 l = true ∧ lastOr 95 l ≠ 47) := by
  induction l with
  | nil => simp [takeUntil, splitTail, noDoubleSlash, lastOr]
  | cons c rest ih =>
    by_cases h47 : c = 47
    · subst h47
      rw [show splitTail 47 (47 :: rest) = takeUntil 47 rest :: splitTail 47 rest by
        simp [splitTail, splitOnByte_shape]]
      cases rest with
      | nil => simp [takeUntil, splitTail, pathElementOk, noDoubleSlash, lastOr, pathLoopChar]
      | cons d r =>
        by_cases hd : d = 47
        · subst hd
          simp [takeUntil, pathElementOk, noDoubleSlash, lastOr]
        · simp [takeUntil, splitTail, pathElementOk, noDoubleSlash, lastOr,
            pathLoopChar, hd] at ih ⊢
          tauto
    · cases rest with
      | nil =>
        simp [takeUntil, splitTail, pathElementOk, noDoubleSlash, lastOr, pathLoopChar, h47]
      | cons d r =>
        simp [takeUntil, splitTail, pathElementOk, noDoubleSlash, lastOr,
          pathLoopChar, h47] at ih ⊢
        tauto

/-- The grammar on a non-root path in terms of the scanner conditions. -/
theorem specGrammar_cons_iff (d : Nat) (tw : List Nat) :
    specObjectPathGrammar (47 :: d :: tw) = true ↔
      ((d :: tw).all pathLoopChar = true ∧ noDoubleSlash 47 (d :: tw) = true ∧
       lastOr 47 (d :: tw) ≠ 47) := by
  by_cases hd : d = 47
  · subst hd
    simp [specObjectPathGrammar, splitOnByte, pathElementOk, noDoubleSlash]
  · have hsh : splitOnByte 47 (d :: tw) = (d :: takeUntil 47 tw) :: splitTail 47 tw := by
      rw [splitOnByte_shape]
      simp [takeUntil, splitTail, hd]
    have hmid := pathSplit_mid tw
    rw [show specObjectPathGrammar (47 :: d :: tw) =
        ((47 == 47 : Bool) && ((d :: tw).isEmpty || (splitOnByte 47 (d :: tw)).all pathElementOk))
        from rfl, hsh]
    cases tw with
    | nil =>
      simp [pathElementOk, takeUntil, splitTail, noDoubleSlash, lastOr, pathLoopChar, hd]
    | cons e t =>
      simp [pathElementOk, takeUntil, splitTail, noDoubleSlash, lastOr, pathLoopChar,
        hd] at hmid ⊢
      tauto

/-- Full characterization: what `ObjectPath.from_bytes` accepts is exactly
`objectPathAmendedSpec`. -/
theorem objectPath_eq_spec (s : List Nat) :
    exOk (ObjectPath.from_bytes s) = objectPathAmendedSpec s := by
  apply boolEq_of_iff
  rw [exOk_eq_true_iff]
  cases s with
  | nil =>
    simp [ObjectPath.from_bytes, objectPathAmendedSpec, hasNul, hasByte]
  | cons b0 rest =>
    by_cases hb : b0 = 47
    · subst hb
      rw [show ObjectPath.from_bytes (47 :: rest) = objectPathLoop (rest.length + 1) 47 rest by
        simp [ObjectPath.from_bytes]]
      rw [objectPathLoop_ok]
      cases rest with
      | nil =>
        simp [objectPathAmendedSpec, hasNul, hasByte]
      | cons d r =>
        by_cases hd0 : d = 0
        · subst hd0
          simp only [objectPathAmendedSpec, hasNul, hasByte, preNul, takeUntil, if_pos rfl,
            List.all_nil, noDoubleSlash, lastOr, List.length_cons]
          simp [specObjectPathGrammar]
        · have hpre : preNul (d :: r) = d :: preNul r := by simp [preNul, takeUntil, hd0]
          by_cases hNr : hasNul r = true
          · have hr1 : 1 ≤ r.length := by
              cases r with
              | nil => simp [hasNul, hasByte] at hNr
              | cons e t => simp
            have hNr' : hasByte 0 r = true := by simpa [hasNul] using hNr
            have hN : hasNul (d :: r) = true := by simp [hasNul, hasByte, hNr']
            have hgr := specGrammar_cons_iff d (preNul r)
            have hRHS : (objectPathAmendedSpec (47 :: d :: r) = true) ↔
                (specObjectPathGrammar (47 :: d :: preNul r) = true) := by
              simp only [objectPathAmendedSpec]
              rw [show preNul (47 :: d :: r) = 47 :: d :: preNul r by
                  simp [preNul, takeUntil, hd0],
                show hasNul (47 :: d :: r) = hasNul (d :: r) by simp [hasNul, hasByte],
                hN,
                show ((47 :: d :: preNul r : List Nat) == [47]) = false by simp]
              simp
            rw [hRHS, hgr, hpre]
            have hne2 : ¬((d :: r).length + 1 = 2) := by
              simp only [List.length_cons]; omega
            constructor
            · rintro ⟨-, hall, hnds, himpl⟩
              exact ⟨hall, hnds, fun h => hne2 (himpl h)⟩
            · rintro ⟨hall, hnds, hlast⟩
              exact ⟨hN, hall, hnds, fun h => absurd h hlast⟩
          · have hNr' : hasByte 0 r = false := by
              simpa [hasNul] using hNr
            have hN : hasNul (d :: r) = false := by simp [hasNul, hasByte, hd0, hNr']
            have hspec : objectPathAmendedSpec (47 :: d :: r) = false := by
              simp [objectPathAmendedSpec, hasNul, hasByte, hd0, hNr']
            simp [hN, hspec]
    · rw [show ObjectPath.from_bytes (b0 :: rest) =
          Except.error "Path must begin with a slash" by
        simp [ObjectPath.from_bytes, hb]]
      by_cases hb0 : b0 = 0
      · subst hb0
        simp [objectPathAmendedSpec, preNul, takeUntil, specObjectPathGrammar]
      · simp [objectPathAmendedSpec, preNul, takeUntil, hb0, specObjectPathGrammar, hb]

/-! ### Claims C1 and C9 -/

/-- C1 counterexample: the claim "from_bytes succeeds iff the byte sequence
matches the §4.1 grammar (nul-terminated)" fails as stated.  Read strictly
(the nul is the final byte of the buffer), the buffer slash-a-nul-j is
accepted by the code but does not match; read loosely (the grammar applies to
the content before the first nul), the buffer slash-nul-j matches the grammar
(a root path, nul-terminated) but is rejected by the code. -/
theorem objectPath_c1_counterexample :
    exOk (ObjectPath.from_bytes [47, 97, 0, 106]) = true ∧
    objectPathStrictSpec [47, 97, 0, 106] = false ∧
    exOk (ObjectPath.from_bytes [47, 0, 106]) = false ∧
    objectPathPreNulSpec [47, 0, 106] = true := by decide

/-- C1 (amended): for every byte sequence s, ObjectPath.from_bytes s succeeds
iff s contains a nul and the content before the first nul matches the §4.1
object-path grammar, with the root path accepted only when the whole buffer is
exactly the two bytes slash-nul; in particular it accepts slash-nul, rejects
nul, slash-a-slash-nul and slash-a-slash-slash-b-nul, and rejects every
sequence containing no nul terminator. -/
theorem objectPath_c1 :
    (∀ s : List Nat, exOk (ObjectPath.from_bytes s) = objectPathAmendedSpec s) ∧
    (∀ s : List Nat, hasNul s = false → exOk (ObjectPath.from_bytes s) = false) ∧
    exOk (ObjectPath.from_bytes [47, 0]) = true ∧
    exOk (ObjectPath.from_bytes [0]) = false ∧
    exOk (ObjectPath.from_bytes [47, 97, 47, 0]) = false ∧
    exOk (ObjectPath.from_bytes [47, 97, 47, 47, 98, 0]) = false := by
  refine ⟨objectPath_eq_spec, ?_, by decide, by decide, by decide, by decide⟩
  intro s h
  rw [objectPath_eq_spec]
  simp [objectPathAmendedSpec, h]

/-- C1 witness: the no-nul clause of the amended claim at a concrete input. -/
theorem objectPath_c1_witness :
    hasNul [47, 104] = false ∧ exOk (ObjectPath.from_bytes [47, 104]) = false :=
  ⟨by decide, objectPath_c1.2.1 [47, 104] (by decide)⟩

/-- C9: ObjectPath.from_bytes decides a non-root path from the bytes up to and
including the first nul only (slash-a-nul-j-u-n-k is accepted), while the
root-path exception compares the whole buffer length with 2, so the root path
followed by extra bytes (slash-nul-j-u-n-k) is rejected; in general the result
on a prefix other than the root path is unchanged by bytes after the nul. -/
theorem objectPath_c9 :
    exOk (ObjectPath.from_bytes [47, 97, 0, 106, 117, 110, 107]) = true ∧
    exOk (ObjectPath.from_bytes [47, 0, 106, 117, 110, 107]) = false ∧
    (∀ p r : List Nat, hasByte 0 p = false → p ≠ [47] →
      exOk (ObjectPath.from_bytes (p ++ 0 :: r)) =
        exOk (ObjectPath.from_bytes (p ++ [0]))) := by
  refine ⟨by decide, by decide, ?_⟩
  intro p r hp hne
  rw [objectPath_eq_spec, objectPath_eq_spec]
  have h0 : (p == [47]) = false := by simp [hne]
  simp [objectPathAmendedSpec, preNul, hasNul, takeUntil_append_sep 0 p _ hp,
    hasByte_append_sep, h0]

/-- C9 witness: the junk-invariance clause at a concrete non-root prefix. -/
theorem objectPath_c9_witness :
    hasByte 0 [47, 104] = false ∧ [47, 104] ≠ [47] ∧
    exOk (ObjectPath.from_bytes ([47, 104] ++ 0 :: [55])) =
      exOk (ObjectPath.from_bytes ([47, 104] ++ [0])) :=
  ⟨by decide, by decide, objectPath_c9.2.2 [47, 104] [55] (by decide) (by decide)⟩

/-! ### Byte-class facts -/

theorem nameStart_not_digit (c : Nat) (h : isNameStartChar c = true) : isDigitByte c = false := by
  simp only [isNameStartChar, isUpperByte, isLowerByte, isDigitByte, Bool.or_eq_true,
    decide_eq_true_iff, beq_iff_eq] at h
  simp only [isDigitByte, decide_eq_false_iff_not]
  omega

theorem nameStart_isNameChar (c : Nat) (h : isNameStartChar c = true) : isNameChar c = true := by
  simp [isNameChar, h]

theorem nameStart_ne_nul (c : Nat) (h : isNameStartChar c = true) : c ≠ 0 := by
  simp only [isNameStartChar, isUpperByte, isLowerByte, Bool.or_eq_true,
    decide_eq_true_iff, beq_iff_eq] at h
  omega

theorem nameStart_ne_dot (c : Nat) (h : isNameStartChar c = true) : c ≠ 46 := by
  simp only [isNameStartChar, isUpperByte, isLowerByte, Bool.or_eq_true,
    decide_eq_true_iff, beq_iff_eq] at h
  omega

theorem nameChar_ne_nul (c : Nat) (h : isNameChar c = true) : c ≠ 0 := by
  simp only [isNameChar, isNameStartChar, isUpperByte, isLowerByte, isDigitByte,
    Bool.or_eq_true, decide_eq_true_iff, beq_iff_eq] at h
  omega

theorem digit_ne_nul (c : Nat) (h : isDigitByte c = true) : c ≠ 0 := by
  simp only [isDigitByte, decide_eq_true_iff] at h
  omega

theorem digit_ne_dot (c : Nat) (h : isDigitByte c = true) : c ≠ 46 := by
  simp only [isDigitByte, decide_eq_true_iff] at h
  omega

/-! ### Spec §4.1 grammar for interface names

Written from the specification text: at least two dot-separated elements,
each element matching an alpha or underscore followed by alphanumerics or
underscores (never starting with a digit). -/

/-- One grammar element of an interface name. -/
def interfaceElementOk : List Nat → Bool
  | [] => false
  | c :: rest => isNameStartChar c && rest.all isNameChar

/-- The §4.1 interface-name grammar applied to the nul-free content `p`. -/
def specInterfaceGrammar (p : List Nat) : Bool :=
  decide (2 ≤ (splitOnByte 46 p).length) && (splitOnByte 46 p).all interfaceElementOk

/-! ### Characterization of the interface-name scanner -/

/-- One byte of the interface-name scan body: a dot or a name character. -/
def ifaceChar (c : Nat) : Bool := (c == 46) || isNameChar c

/-- Pair scan with look-behind `prev`: no two adjacent dots and no digit
immediately after a dot. -/
def dotScan (prev : Nat) : List Nat → Bool
  | [] => true
  | c :: rest =>
    !((prev == 46) && (c == 46)) && !((prev == 46) && isDigitByte c) && dotScan c rest

theorem dotScan_ne (p : Nat) (hp : p ≠ 46) (l : List Nat) : dotScan p l = dotScan 95 l := by
  cases l with
  | nil => rfl
  | cons c rest => simp [dotScan, hp]

theorem splitTail_length (sep : Nat) (l : List Nat) :
    (splitTail sep l).length = countByte sep l := by
  induction l with
  | nil => rfl
  | cons c rest ih =>
    by_cases h : c = sep
    · rw [show splitTail sep (c :: rest) = splitOnByte sep rest by simp [splitTail, h],
        splitOnByte_shape]
      simp [countByte, h, ih]
      omega
    · simp [splitTail, countByte, h, ih]

theorem interfaceLoop_ok (blen : Nat) (l : List Nat) : ∀ prev periods : Nat,
    interfaceLoop blen prev periods l = Except.ok () ↔
      (hasNul l = true ∧ (preNul l).all ifaceChar = true ∧
       dotScan prev (preNul l) = true ∧
       (lastOr prev (preNul l) = 46 → blen = 1) ∧
       1 ≤ periods + countByte 46 (preNul l)) := by
  induction l with
  | nil => intro prev periods; simp [interfaceLoop, hasNul, hasByte]
  | cons c rest ih =>
    intro prev periods
    by_cases h46 : c = 46
    · subst h46
      by_cases hp : prev = 46
      · subst hp
        simp [interfaceLoop, hasNul, hasByte, preNul, takeUntil, dotScan]
      · rw [show interfaceLoop blen prev periods (46 :: rest) =
            interfaceLoop blen 46 (periods + 1) rest by simp [interfaceLoop, hp]]
        rw [ih 46 (periods + 1)]
        simp only [hasNul, hasByte, preNul, takeUntil, if_pos rfl, dotScan, lastOr, countByte,
          ifaceChar, List.all_cons, Bool.and_eq_true, Bool.or_eq_true, beq_iff_eq,
          Bool.not_eq_true']
        simp [hp, show isDigitByte 46 = false from by decide]
        intro hnb
        constructor
        · rintro ⟨h2, h3, h4, h5⟩
          exact ⟨⟨by decide, h2⟩, h3, h4, by omega⟩
        · rintro ⟨⟨-, h2⟩, h3, h4, h5⟩
          exact ⟨h2, h3, h4, by omega⟩
    · by_cases hnc : isNameChar c = true
      · have hc0 : c ≠ 0 := nameChar_ne_nul c hnc
        by_cases hstart : isNameStartChar c = true
        · rw [show interfaceLoop blen prev periods (c :: rest) =
              interfaceLoop blen c periods rest by simp [interfaceLoop, h46, hstart]]
          rw [ih c periods]
          simp [hasNul, hasByte, preNul, takeUntil, dotScan, lastOr, countByte,
            ifaceChar, hc0, h46, hnc, nameStart_not_digit c hstart]
        · have hdig : isDigitByte c = true := by
            simp only [isNameChar, Bool.or_eq_true] at hnc
            tauto
          by_cases hp : prev = 46
          · subst hp
            rw [show interfaceLoop blen 46 periods (c :: rest) =
                Except.error "Name element must not start with a digit" by
              simp [interfaceLoop, h46, hstart, hdig]]
            simp [hasNul, hasByte, preNul, takeUntil, dotScan, hc0, hdig]
          · rw [show interfaceLoop blen prev periods (c :: rest) =
                interfaceLoop blen c periods rest by simp [interfaceLoop, h46, hstart, hdig, hp]]
            rw [ih c periods]
            simp [hasNul, hasByte, preNul, takeUntil, dotScan, lastOr, countByte,
              ifaceChar, hc0, h46, hnc, hp, hdig]
      · by_cases hc0 : c = 0
        · subst hc0
          rw [show interfaceLoop blen prev periods (0 :: rest) =
              (if prev = 46 ∧ blen ≠ 1 then Except.error "Name must not end in a dot"
               else if periods < 1 then Except.error "Name must have at least 2 elements"
               else Except.ok ()) by
            simp [interfaceLoop, hnc, show isNameStartChar 0 = false from by decide,
              show isDigitByte 0 = false from by decide]]
          by_cases hcond : prev = 46 ∧ blen ≠ 1
          · simp only [if_pos hcond]
            constructor
            · intro h; simp at h
            · rintro ⟨-, -, -, h4, -⟩
              simp [preNul, takeUntil, lastOr] at h4
              exact absurd (h4 hcond.1) hcond.2
          · simp only [if_neg hcond]
            by_cases hper : periods < 1
            · simp only [if_pos hper]
              simp [hasNul, hasByte, preNul, takeUntil, dotScan, lastOr, countByte]
              omega
            · simp only [if_neg hper]
              simp [hasNul, hasByte, preNul, takeUntil, dotScan, lastOr, countByte]
              constructor
              · intro hpv
                by_contra hb
                exact hcond ⟨hpv, hb⟩
              · omega
        · rw [show interfaceLoop blen prev periods (c :: rest) =
              Except.error "Invalid character in interface name" by
            simp only [isNameChar, Bool.or_eq_true, not_or] at hnc
            simp [interfaceLoop, h46, hc0, hnc.1, hnc.2]]
          simp [hasNul, hasByte, preNul, takeUntil, hc0, ifaceChar, h46, hnc]

/-- Bridge between the element-wise interface grammar and the pair-scan
conditions, for a scan position in the middle of an element.  `95` is a dummy
non-dot look-behind byte. -/
theorem ifaceSplit_mid (l : List Nat) :
    ((takeUntil 46 l).all isNameChar = true ∧
        (splitTail 46 l).all interfaceElementOk = true) ↔
      (l.all ifaceChar = true ∧ dotScan 95 l = true ∧ lastOr 95 l ≠ 46) := by
  induction l with
  | nil => simp [takeUntil, splitTail, dotScan, lastOr]
  | cons c rest ih =>
    by_cases h46 : c = 46
    · subst h46
      rw [show splitTail 46 (46 :: rest) = takeUntil 46 rest :: splitTail 46 rest by
        simp [splitTail, splitOnByte_shape]]
      cases rest with
      | nil => simp [takeUntil, splitTail, interfaceElementOk, dotScan, lastOr, ifaceChar]
      | cons d r =>
        by_cases hd : d = 46
        · subst hd
          simp [takeUntil, interfaceElementOk, dotScan, lastOr]
        · by_cases hds : isNameStartChar d = true
          · have hdd : isDigitByte d = false := nameStart_not_digit d hds
            have hdn : isNameChar d = true := nameStart_isNameChar d hds
            simp [takeUntil, splitTail, interfaceElementOk, dotScan, lastOr, ifaceChar,
              hd, hds, hdd, hdn] at ih ⊢
            tauto
          · by_cases hdd : isDigitByte d = true
            · simp [takeUntil, interfaceElementOk, dotScan, hd, hds, hdd]
            · have hnc : isNameChar d = false := by
                simp [isNameChar, hds, hdd]
              simp [takeUntil, interfaceElementOk, dotScan, ifaceChar, hd, hds, hnc]
    · cases rest with
      | nil =>
        simp [takeUntil, splitTail, interfaceElementOk, dotScan, lastOr, ifaceChar, h46]
      | cons d r =>
        simp [takeUntil, splitTail, interfaceElementOk, dotScan, lastOr, ifaceChar,
          h46] at ih ⊢
        tauto

/-- Success of `InterfaceName.from_bytes` forces the §4.1 interface grammar on
the content before the first nul. -/
theorem interface_necessity (s : List Nat) (h : exOk (InterfaceName.from_bytes s) = true) :
    hasNul s = true ∧ specInterfaceGrammar (preNul s) = true := by
  rw [exOk_eq_true_iff] at h
  match s with
  | [] => exact absurd h (by simp [InterfaceName.from_bytes])
  | b0 :: rest =>
    by_cases h46 : b0 = 46
    · rw [show InterfaceName.from_bytes (b0 :: rest) =
          Except.error "Name must not begin with a dot" by
        simp [InterfaceName.from_bytes, h46]] at h
      simp at h
    · by_cases hst : isNameStartChar b0 = true
      · rw [show InterfaceName.from_bytes (b0 :: rest) =
            interfaceLoop (rest.length + 1) b0 0 rest by
          simp [InterfaceName.from_bytes, h46, hst]] at h
        rw [interfaceLoop_ok] at h
        obtain ⟨hN, hall, hdot, hlast, hcount⟩ := h
        have hb0 : b0 ≠ 0 := nameStart_ne_nul b0 hst
        have hNs : hasNul (b0 :: rest) = true := by
          simp only [hasNul, hasByte] at hN ⊢
          simp [hN]
        have hpre : preNul (b0 :: rest) = b0 :: preNul rest := by
          simp [preNul, takeUntil, hb0]
        refine ⟨hNs, ?_⟩
        rw [hpre]
        have hrest1 : 1 ≤ rest.length := by
          cases rest with
          | nil => simp [hasNul, hasByte] at hN
          | cons e t => simp
        have hlast2 : lastOr b0 (preNul rest) ≠ 46 := by
          intro hh
          have := hlast hh
          omega
        have hl95 : lastOr 95 (preNul rest) ≠ 46 := by
          cases hq : preNul rest with
          | nil => simp [lastOr]
          | cons e t =>
            rw [hq] at hlast2
            simpa [lastOr] using hlast2
        have hdot95 : dotScan 95 (preNul rest) = true := by
          rw [← dotScan_ne b0 h46]
          exact hdot
        have hmid := (ifaceSplit_mid (preNul rest)).mpr ⟨hall, hdot95, hl95⟩
        have hsh : splitOnByte 46 (b0 :: preNul rest) =
            (b0 :: takeUntil 46 (preNul rest)) :: splitTail 46 (preNul rest) := by
          rw [splitOnByte_shape]
          simp [takeUntil, splitTail, h46]
        rw [specInterfaceGrammar, hsh]
        have hlen : 1 ≤ countByte 46 (preNul rest) := by
          simpa using hcount
        have hcnt : (splitTail 46 (preNul rest)).length = countByte 46 (preNul rest) :=
          splitTail_length 46 (preNul rest)
        simp only [List.all_cons, interfaceElementOk, List.length_cons, Bool.and_eq_true,
          decide_eq_true_iff]
        refine ⟨by omega, ⟨?_, hmid.2⟩⟩
        simp [hst, hmid.1]
      · rw [show InterfaceName.from_bytes (b0 :: rest) =
            Except.error "Name must only begin with an upper or lower letter or underscore" by
          simp [InterfaceName.from_bytes, h46, hst]] at h
        simp at h

/-- C6: InterfaceName.from_bytes succeeds only when the byte sequence (its
content before the nul terminator) holds at least two dot-separated elements,
each starting with a letter or underscore followed by alphanumerics or
underscores, with no leading, trailing or doubled dot: a-dot-b-nul succeeds,
while a-nul (no dot), 1-a-dot-b-nul (digit-leading element) and
a-dot-dot-b-nul (empty element) all fail. -/
theorem interfaceName_c6 :
    (∀ s : List Nat, exOk (InterfaceName.from_bytes s) = true →
      hasNul s = true ∧ specInterfaceGrammar (preNul s) = true) ∧
    exOk (InterfaceName.from_bytes [97, 46, 98, 0]) = true ∧
    exOk (InterfaceName.from_bytes [97, 0]) = false ∧
    exOk (InterfaceName.from_bytes [49, 97, 46, 98, 0]) = false ∧
    exOk (InterfaceName.from_bytes [97, 46, 46, 98, 0]) = false :=
  ⟨interface_necessity, by decide, by decide, by decide, by decide⟩

/-- C6 witness: the necessity clause applied at the accepted input a-dot-b-nul. -/
theorem interfaceName_c6_witness :
    hasNul [97, 46, 98, 0] = true ∧ specInterfaceGrammar (preNul [97, 46, 98, 0]) = true :=
  interfaceName_c6.1 [97, 46, 98, 0] (by decide)

/-! ### MemberName: grammar, characterization, claim C7 -/

/-- The member-name grammar from the claim: one element starting with a letter
or underscore, followed by alphanumerics or underscores, no dot, and at most
255 bytes long. -/
def specMemberGrammar : List Nat → Bool
  | [] => false
  | c :: rest =>
    isNameStartChar c && rest.all isNameChar && !hasByte 46 (c :: rest) &&
      decide ((c :: rest).length ≤ 255)

theorem all_nameChar_no_dot (l : List Nat) (h : l.all isNameChar = true) :
    hasByte 46 l = false := by
  induction l with
  | nil => rfl
  | cons c rest ih =>
    simp only [List.all_cons, Bool.and_eq_true] at h
    have hc : c ≠ 46 := by
      intro hh
      subst hh
      exact absurd h.1 (by decide)
    simp [hasByte, hc, ih h.2]

theorem memberLoop_ok (l : List Nat) :
    memberLoop l = Except.ok () ↔
      (hasNul l = true ∧ (preNul l).all isNameChar = true) := by
  induction l with
  | nil => simp [memberLoop, hasNul, hasByte]
  | cons c rest ih =>
    by_cases hnc : isNameChar c = true
    · have hc0 : c ≠ 0 := nameChar_ne_nul c hnc
      rw [show memberLoop (c :: rest) = memberLoop rest by simp [memberLoop, hnc]]
      rw [ih]
      simp [hasNul, hasByte, preNul, takeUntil, hc0, hnc]
    · by_cases hc0 : c = 0
      · subst hc0
        rw [show memberLoop (0 :: rest) = Except.ok () by
          simp [memberLoop, show isNameChar 0 = false from by decide]]
        simp [hasNul, hasByte, preNul, takeUntil]
      · rw [show memberLoop (c :: rest) = Except.error "Invalid character in member name" by
          simp [memberLoop, hnc, hc0]]
        simp [hasNul, hasByte, preNul, takeUntil, hc0, hnc]

/-- Success of `MemberName.from_bytes` forces the member grammar on the content
before the first nul. -/
theorem member_necessity (s : List Nat) (h : exOk (MemberName.from_bytes s) = true) :
    hasNul s = true ∧ specMemberGrammar (preNul s) = true := by
  rw [exOk_eq_true_iff] at h
  match s with
  | [] => exact absurd h (by simp [MemberName.from_bytes])
  | b0 :: rest =>
    by_cases hlen2 : rest.length + 1 < 2
    · rw [show MemberName.from_bytes (b0 :: rest) =
          Except.error "Name must have more than 0 characters" by
        simp [MemberName.from_bytes, hlen2]] at h
      simp at h
    · by_cases hlen256 : 256 < rest.length + 1
      · rw [show MemberName.from_bytes (b0 :: rest) =
            Except.error "Must be shorter than 255 characters" by
          simp [MemberName.from_bytes, hlen2, hlen256]] at h
        simp at h
      · by_cases hst : isNameStartChar b0 = true
        · rw [show MemberName.from_bytes (b0 :: rest) = memberLoop (b0 :: rest) by
            simp [MemberName.from_bytes, hlen2, hlen256, hst]] at h
          rw [memberLoop_ok] at h
          obtain ⟨hN, hall⟩ := h
          have hb0 : b0 ≠ 0 := nameStart_ne_nul b0 hst
          have hpre : preNul (b0 :: rest) = b0 :: preNul rest := by
            simp [preNul, takeUntil, hb0]
          have hlt : (preNul (b0 :: rest)).length < (b0 :: rest).length :=
            preNul_length_lt _ hN
          refine ⟨hN, ?_⟩
          rw [hpre] at hall hlt ⊢
          simp only [List.all_cons, Bool.and_eq_true] at hall
          have hnd : hasByte 46 (b0 :: preNul rest) = false := by
            apply all_nameChar_no_dot
            simp [hall.1, hall.2]
          simp only [specMemberGrammar, Bool.and_eq_true, Bool.not_eq_true',
            decide_eq_true_iff]
          refine ⟨⟨⟨hst, hall.2⟩, hnd⟩, ?_⟩
          simp only [List.length_cons] at hlt ⊢
          omega
        · rw [show MemberName.from_bytes (b0 :: rest) =
              Except.error "Must begin with an upper or lower letter or underscore" by
            simp [MemberName.from_bytes, hlen2, hlen256, hst]] at h
          simp at h

/-- C7: MemberName.from_bytes succeeds only when the byte sequence holds, up
to the nul terminator, at least one byte, no dot, a leading letter or
underscore (no leading digit), alphanumerics or underscores thereafter, and at
most 255 content bytes: a-nul succeeds while nul alone and 1-a-nul fail. -/
theorem memberName_c7 :
    (∀ s : List Nat, exOk (MemberName.from_bytes s) = true →
      hasNul s = true ∧ specMemberGrammar (preNul s) = true) ∧
    exOk (MemberName.from_bytes [97, 0]) = true ∧
    exOk (MemberName.from_bytes [0]) = false ∧
    exOk (MemberName.from_bytes [49, 97, 0]) = false :=
  ⟨member_necessity, by decide, by decide, by decide⟩

/-- C7 witness: the necessity clause applied at the accepted input a-nul. -/
theorem memberName_c7_witness :
    hasNul [97, 0] = true ∧ specMemberGrammar (preNul [97, 0]) = true :=
  memberName_c7.1 [97, 0] (by decide)

/-! ### BusName: claim C5 -/

set_option maxRecDepth 8000 in
/-- C5: BusName.from_bytes accepts a leading colon (unique name) under which
elements may begin with a digit (colon-a-dot-1-nul succeeds), rejects a
digit-leading element in a non-unique name (a-dot-b-hyphen-c-dot-0-a-nul fails
while a-dot-b-hyphen-c-dot-a-0-nul succeeds, the latter also showing hyphens
are allowed in elements), and enforces the length limit: buffers up to 256
total bytes are accepted (a 256-byte valid name passes) and longer buffers are
always rejected. -/
theorem busName_c5 :
    exOk (BusName.from_bytes [58, 97, 46, 49, 0]) = true ∧
    exOk (BusName.from_bytes [97, 46, 98, 45, 99, 46, 48, 97, 0]) = false ∧
    exOk (BusName.from_bytes [97, 46, 98, 45, 99, 46, 97, 48, 0]) = true ∧
    (∀ s : List Nat, 256 < s.length → exOk (BusName.from_bytes s) = false) ∧
    exOk (BusName.from_bytes ([97, 46] ++ List.replicate 253 98 ++ [0])) = true := by
  refine ⟨by decide, by decide, by decide, ?_, by decide⟩
  intro s hs
  match s with
  | [] => simp at hs
  | b0 :: rest =>
    rw [show BusName.from_bytes (b0 :: rest) =
        Except.error "Must be shorter than 255 characters" by
      simp [BusName.from_bytes, show 256 < rest.length + 1 from by simpa using hs]]
    rfl

set_option maxRecDepth 8000 in
/-- C5 witness: the over-length clause applied to a 257-byte buffer. -/
theorem busName_c5_witness :
    256 < (List.replicate 257 97).length ∧
    exOk (BusName.from_bytes (List.replicate 257 97)) = false :=
  ⟨by decide, busName_c5.2.2.2.1 (List.replicate 257 97) (by decide)⟩

/-! ### Message sealing state machine (claim C2)

Modelled from the spec: the Rust wrappers (src/bus/mod.rs lines 1127-1150,
1189-1304) forward to the native sd-bus runtime, which §4.3 specifies as a
two-state machine.  `sealed` is the state bit; mutations fail with a
"message is sealed" condition and leave the message unchanged when set, and
every send/call variant performs the Mutable-to-Sealed transition. -/

structure SdMessage where
  sealed : Bool
  destination : Option (List Nat)
  auto_start : Bool
  body : List (List Nat)

/-- The failure condition reported for a mutation of a sealed message. -/
def sealedCondition : String := "message is sealed"

/-- `MessageRef::set_destination`: fails if the message is sealed. -/
def MessageRef.set_destination (m : SdMessage) (dest : List Nat) :
    SdMessage × Except String Unit :=
  if m.sealed then (m, Except.error sealedCondition)
  else ({ m with destination := some dest }, Except.ok ())

/-- `MessageRef::set_auto_start`: fails if the message is sealed. -/
def MessageRef.set_auto_start (m : SdMessage) (yes : Bool) :
    SdMessage × Except String Unit :=
  if m.sealed then (m, Except.error sealedCondition)
  else ({ m with auto_start := yes }, Except.ok ())

/-- `MessageRef::append` (via `append_basic_raw`): fails if the message is
sealed, otherwise appends one value to the body. -/
def MessageRef.append (m : SdMessage) (v : List Nat) : SdMessage × Except String Unit :=
  if m.sealed then (m, Except.error sealedCondition)
  else ({ m with body := m.body ++ [v] }, Except.ok ())

/-- `MessageRef::send`: seals the message (then transmits). -/
def MessageRef.send (m : SdMessage) : SdMessage := { m with sealed := true }

/-- `MessageRef::send_no_reply`: seals the message. -/
def MessageRef.send_no_reply (m : SdMessage) : SdMessage := { m with sealed := true }

/-- `MessageRef::send_to`: internally set_destination followed by send. -/
def MessageRef.send_to (m : SdMessage) (dest : List Nat) : SdMessage :=
  MessageRef.send (MessageRef.set_destination m dest).1

/-- `MessageRef::send_to_no_reply`: internally set_destination then send. -/
def MessageRef.send_to_no_reply (m : SdMessage) (dest : List Nat) : SdMessage :=
  MessageRef.send (MessageRef.set_destination m dest).1

/-- `MessageRef::call`: seals the message (then blocks for the reply). -/
def MessageRef.call (m : SdMessage) (usec : Nat) : SdMessage :=
  { m with sealed := true }

/-- `MessageRef::call_async`: seals the message (reply via callback). -/
def MessageRef.call_async (m : SdMessage) (usec : Nat) : SdMessage :=
  { m with sealed := true }

/-- All three mutation operations fail on `m` with the sealed condition and
return `m` unchanged. -/
def mutationsSealedFail (m : SdMessage) : Prop :=
  (∀ d : List Nat, MessageRef.set_destination m d = (m, Except.error sealedCondition)) ∧
  (∀ y : Bool, MessageRef.set_auto_start m y = (m, Except.error sealedCondition)) ∧
  (∀ v : List Nat, MessageRef.append m v = (m, Except.error sealedCondition))

theorem mutationsSealedFail_of_sealed (m : SdMessage) (h : m.sealed = true) :
    mutationsSealedFail m := by
  refine ⟨fun d => ?_, fun y => ?_, fun v => ?_⟩ <;>
    simp [MessageRef.set_destination, MessageRef.set_auto_start, MessageRef.append, h]

/-- C2: after a message is sealed by any of send, send_no_reply, send_to,
send_to_no_reply, call or call_async, each mutation operation (append,
set_destination, set_auto_start) returns a failure carrying the sealed
condition and leaves the message state unchanged. -/
theorem message_c2 :
    ∀ (m : SdMessage) (d e : List Nat) (u w : Nat),
      mutationsSealedFail (MessageRef.send m) ∧
      mutationsSealedFail (MessageRef.send_no_reply m) ∧
      mutationsSealedFail (MessageRef.send_to m d) ∧
      mutationsSealedFail (MessageRef.send_to_no_reply m e) ∧
      mutationsSealedFail (MessageRef.call m u) ∧
      mutationsSealedFail (MessageRef.call_async m w) := by
  intro m d e u w
  refine ⟨?_, ?_, ?_, ?_, ?_, ?_⟩ <;> exact mutationsSealedFail_of_sealed _ rfl

/-! ### Reference counting of Bus handles (claim C3)

Modelled from the spec: `sd_bus_ref` and `sd_bus_unref` are the native
runtime's acquire/release; the count starts at one when a connection is
opened, `Clone for Bus` calls `sd_bus_ref`, `Drop for Bus` calls
`sd_bus_unref`, borrowing (`Borrow<BusRef>`) passes the raw pointer without
touching the count, and `ToOwned for BusRef` promotes by calling
`sd_bus_ref` once more (src/bus/mod.rs lines 746-805).  The runtime releases
the connection exactly when the count reaches zero. -/

def sd_bus_ref (c : Nat) : Nat := c + 1

def sd_bus_unref (c : Nat) : Nat := c - 1

/-- Count after duplicating an owning handle `n` times. -/
def cloneTimes : Nat → Nat → Nat
  | 0, c => c
  | Nat.succ n, c => cloneTimes n (sd_bus_ref c)

/-- Count after destroying `n` owning handles. -/
def dropTimes : Nat → Nat → Nat
  | 0, c => c
  | Nat.succ n, c => dropTimes n (sd_bus_unref c)

/-- Native count after opening one connection (count one), cloning the handle
`n` times, then dropping `k` of the handles. -/
def busCount (n k : Nat) : Nat := dropTimes k (cloneTimes n 1)

/-- Borrowing a `BusRef` view from an owning handle: no count change. -/
def Bus.borrow_view (c : Nat) : Nat := c

/-- `ToOwned for BusRef`: promotion acquires one more reference. -/
def BusRef.to_owned (c : Nat) : Nat := sd_bus_ref c

theorem cloneTimes_eq (n : Nat) : ∀ c : Nat, cloneTimes n c = c + n := by
  induction n with
  | zero => intro c; rfl
  | succ n ih =>
    intro c
    rw [show cloneTimes (n + 1) c = cloneTimes n (sd_bus_ref c) from rfl, ih]
    simp [sd_bus_ref]
    omega

theorem dropTimes_eq (k : Nat) : ∀ c : Nat, dropTimes k c = c - k := by
  induction k with
  | zero => intro c; rfl
  | succ k ih =>
    intro c
    rw [show dropTimes (k + 1) c = dropTimes k (sd_bus_unref c) from rfl, ih]
    simp [sd_bus_unref]
    omega

/-- C3: opening a connection and duplicating the owning handle N times gives a
count of N+1; as long as at most N handles have been dropped the count is
still positive (the connection is not released and borrowed views remain
valid), the count reaches zero exactly when the last of the N+1 handles is
dropped, borrowing never changes the count, and promoting a borrowed view
acquires exactly one more reference. -/
theorem bus_c3 :
    ∀ n : Nat,
      (∀ k : Nat, k ≤ n → 1 ≤ busCount n k) ∧
      busCount n (n + 1) = 0 ∧
      (∀ c : Nat, Bus.borrow_view c = c) ∧
      (∀ c : Nat, BusRef.to_owned c = c + 1) := by
  intro n
  refine ⟨?_, ?_, fun c => rfl, fun c => rfl⟩
  · intro k hk
    rw [busCount, cloneTimes_eq, dropTimes_eq]
    omega
  · rw [busCount, cloneTimes_eq, dropTimes_eq]
    omega

/-- C3 witness: three clones, then partial and full drops, at concrete counts. -/
theorem bus_c3_witness :
    (2 ≤ 3 ∧ 1 ≤ busCount 3 2) ∧ busCount 3 4 = 0 :=
  ⟨⟨by decide, (bus_c3 3).1 2 (by decide)⟩, (bus_c3 3).2.1⟩

/-! ### Cursor reads (claim C4)

Modelled from the spec: `ffi_result` (crate root, not under src/) maps a
negative native status to an error and passes a non-negative status through;
`sd_bus_message_read_basic` returns 1 when a value of the requested type was
read, another non-negative status on a type mismatch against what is present,
and a negative status on a genuine protocol failure.  The `Ok(1)` versus
`Ok(_)` match of `MessageIter::read_basic_raw` (src/bus/mod.rs lines
1346-1362) is modelled as an equality test on the status. -/

def ffi_result (r : Int) : Except Int Int :=
  if r < 0 then Except.error r else Except.ok r

/-- `MessageIter::read_basic_raw`: `v` is the value the runtime deposits on a
successful read and `cons` the caller-supplied constructor. -/
def MessageIter.read_basic_raw (R T : Type) (status : Int) (v : R) (cons : R → T) :
    Except Int (Option T) :=
  match ffi_result status with
  | Except.ok r => if r = 1 then Except.ok (some (cons v)) else Except.ok none
  | Except.error e => Except.error e

/-- C4: read_basic_raw returns success carrying no value (not an error) when
the runtime reports a non-negative status other than 1 (a type mismatch);
it returns a read value exactly when the runtime reports 1; and it returns an
error exactly for a negative (genuine failure) status. -/
theorem messageIter_c4 :
    ∀ (R T : Type) (st : Int) (v : R) (cons : R → T),
      (0 ≤ st → st ≠ 1 → MessageIter.read_basic_raw R T st v cons = Except.ok none) ∧
      ((∃ t : T, MessageIter.read_basic_raw R T st v cons = Except.ok (some t)) ↔ st = 1) ∧
      (st < 0 → MessageIter.read_basic_raw R T st v cons = Except.error st) := by
  intro R T st v cons
  refine ⟨?_, ⟨?_, ?_⟩, ?_⟩
  · intro h0 h1
    simp [MessageIter.read_basic_raw, ffi_result, h1, show ¬st < 0 by omega]
  · rintro ⟨t, ht⟩
    by_cases hneg : st < 0
    · simp [MessageIter.read_basic_raw, ffi_result, hneg] at ht
    · by_cases h1 : st = 1
      · exact h1
      · simp [MessageIter.read_basic_raw, ffi_result, hneg, h1] at ht
  · intro h1
    subst h1
    exact ⟨cons v, by simp [MessageIter.read_basic_raw, ffi_result]⟩
  · intro hneg
    simp [MessageIter.read_basic_raw, ffi_result, hneg]

/-- C4 witness: the mismatch and failure clauses at concrete statuses. -/
theorem messageIter_c4_witness :
    MessageIter.read_basic_raw Nat Nat 2 0 id = Except.ok none ∧
    MessageIter.read_basic_raw Nat Nat (-3) 0 id = Except.error (-3) :=
  ⟨(messageIter_c4 Nat Nat 2 0 id).1 (by decide) (by decide),
   (messageIter_c4 Nat Nat (-3) 0 id).2.2 (by decide)⟩

/-! ### Error channel (claim C8)

The `sd_bus_error` pair of C strings is modelled with `Option String`
(`none` is the null pointer).  Modelled from the spec: `sd_bus_error_set`
(native runtime) stores the given name and stores the message exactly when
one is supplied, leaving the message pointer null otherwise.  `Error::new`,
`Error::name`, `Error::message` and the `Display` instance are embedded from
src/bus/mod.rs lines 473-534. -/

structure SdBusErrorSlot where
  name : Option String
  message : Option String

/-- `RawError::with` / `sd_bus_error_set`: store the name and the optional
message. -/
def RawError.with_strings (name : String) (message : Option String) : SdBusErrorSlot :=
  { name := some name, message := message }

structure Error where
  raw : SdBusErrorSlot
  name_len : Nat
  message_len : Nat

/-- `Error::new`: builds the slot and caches the C-string lengths (length of
the text plus one for the nul terminator; zero when absent). -/
def Error.new (name : String) (message : Option String) : Error :=
  { raw := RawError.with_strings name message,
    name_len := name.length + 1,
    message_len := match message with
      | some m => m.length + 1
      | none => 0 }

/-- `Error::name`: the stored name (always set for a constructed error). -/
def Error.name (e : Error) : String :=
  match e.raw.name with
  | some n => n
  | none => ""

/-- `Error::message`: `none` exactly when the message pointer is null. -/
def Error.message (e : Error) : Option String := e.raw.message

/-- The `Display` implementation (`fmt`): the name always appears; the
message is appended only when present. -/
def Error.fmt (e : Error) : String :=
  match Error.message e with
  | some m => "Dbus Error: " ++ Error.name e ++ ": " ++ m
  | none => "Dbus Error: " ++ Error.name e

/-- C8: an Error constructed with a name and no message returns none from the
message accessor and displays only the name; one constructed with both
returns that message and displays both the name and the message. -/
theorem error_c8 :
    ∀ n m : String,
      Error.message (Error.new n none) = none ∧
      Error.fmt (Error.new n none) = "Dbus Error: " ++ n ∧
      Error.message (Error.new n (some m)) = some m ∧
      Error.fmt (Error.new n (some m)) = "Dbus Error: " ++ n ++ ": " ++ m := by
  intro n m
  exact ⟨rfl, rfl, rfl, rfl⟩

/-! ### Journal field parsing (claim C10)

`Journal::get_next_field` (src/journal.rs lines 77-95).  Modelled from the
spec where the code leaves the repository: `sd_journal_enumerate_data`
returns a positive status with a field buffer, zero at the end of the entry,
or a negative status on error (propagated by the `sd_try` macro); the Rust
`splitn(2, sep)` splits at the first separator only.  The two `unwrap()`
calls are modelled by an `Option` result whose `none` is a panic. -/

/-- Rust `splitn(2, sep)` on a byte string: at most two pieces, split at the
first occurrence of `sep` only. -/
def splitn2 (sep : Nat) (l : List Nat) : List (List Nat) :=
  if hasByte sep l then [takeUntil sep l, restAfter sep l] else [l]

/-- `Journal::get_next_field` on an enumerate status `r` and (when positive) a
field buffer: `none` models a panic of the second `unwrap()`. -/
def Journal.get_next_field (r : Int) (buf : List Nat) :
    Option (Except Int (Option (List Nat × List Nat))) :=
  if r < 0 then some (Except.error r)
  else if 0 < r then
    match splitn2 61 buf with
    | n :: v :: _ => some (Except.ok (some (n, v)))
    | _ => none
  else some (Except.ok none)

/-- C10: whenever the runtime yields a field buffer (positive status),
get_next_field splits it at the first equals byte only: the name is the
content before the first equals and the value is the entire remainder, which
may itself contain an equals byte (witnessed on N-equals-a-equals-b);
on a buffer with no equals byte the second unwrap panics instead of
returning an error. -/
theorem journal_c10 :
    ∀ (r : Int) (buf : List Nat), 0 < r →
      (hasByte 61 buf = true →
        Journal.get_next_field r buf =
          some (Except.ok (some (takeUntil 61 buf, restAfter 61 buf)))) ∧
      (hasByte 61 buf = false → Journal.get_next_field r buf = none) ∧
      Journal.get_next_field r [78, 61, 97, 61, 98] =
        some (Except.ok (some ([78], [97, 61, 98]))) := by
  intro r buf hr
  have hnn : ¬r < 0 := by omega
  refine ⟨?_, ?_, ?_⟩
  · intro hb
    simp [Journal.get_next_field, splitn2, hnn, hr, hb]
  · intro hb
    simp [Journal.get_next_field, splitn2, hnn, hr, hb]
  · simp [Journal.get_next_field, splitn2, hnn, hr, hasByte, takeUntil, restAfter]

/-- C10 witness: the split and panic clauses at concrete buffers. -/
theorem journal_c10_witness :
    Journal.get_next_field 1 [78, 61, 97, 61, 98] =
      some (Except.ok (some ([78], [97, 61, 98]))) ∧
    Journal.get_next_field 1 [78, 79] = none :=
  ⟨(journal_c10 1 [78, 61, 97, 61, 98] (by decide)).1 (by decide),
   (journal_c10 1 [78, 79] (by decide)).2.1 (by decide)⟩

end Systemd
